import Mathlib

/-!
# Record codec, predicate evaluator and positional search of `main_instruct.cpp`

A shallow embedding of the query path of `src/main_instruct.cpp`:
`crc16`, `encode_integer`, `decode_integer`, `validate_checksum`,
`matches_criteria` and `binary_search_memory_mapped`.

Conventions.  A `uint16_t` is a natural number below `65536`, a `uint64_t` a
natural number below `2 ^ 64`; every assignment to a `uint16_t` variable is
written with an explicit `% 65536`.  The `int` fields and locals are integers.
The mapped region `uint64_t* data` is a function from slot numbers to words.
-/

namespace MainInstruct

/-! ## Checksum unit -/

/-- The `for` loop of `crc16` (source lines 43-50), `k` iterations remaining.
Both locals are `uint16_t`, hence the reductions modulo `65536`. -/
def crc16_loop : Nat → Nat → Nat → Nat
  | 0, crc, _ => crc
  | k + 1, crc, data =>
    if (crc ^^^ data) &&& 0x0001 ≠ 0 then
      crc16_loop k (((crc >>> 1) ^^^ 0x8408) % 65536) ((data >>> 1) % 65536)
    else
      crc16_loop k ((crc >>> 1) % 65536) ((data >>> 1) % 65536)

/-- `uint16_t crc16(uint16_t value, uint16_t index)`.  The final `~crc` is the
complement of the promoted `int`, truncated to sixteen bits on return. -/
def crc16 (value index : Nat) : Nat :=
  let crc := 0xFFFF
  let data := (value ^^^ index) % 65536
  (crc16_loop 16 crc data ^^^ 0xFFFF) % 65536

/-- One round of the shift register of `crc16`, acting on the single word
`crc ^^^ data`; the loop of `crc16` is shown below to follow it. -/
def crc16_round (x : Nat) : Nat :=
  if x &&& 0x0001 ≠ 0 then (x >>> 1) ^^^ 0x8408 else x >>> 1

/-! ## Record codec -/

/-- `uint64_t encode_integer(uint16_t value, uint16_t index, uint16_t flags)`. -/
def encode_integer (value index flags : Nat) : Nat :=
  let encoded := 0
  let encoded := encoded ||| (value &&& 0xFFFF)
  let encoded := encoded ||| ((index &&& 0xFFFF) <<< 16)
  let encoded := encoded ||| ((flags &&& 0xFFFF) <<< 32)
  let checksum := crc16 value index
  let encoded := encoded ||| ((checksum &&& 0xFFFF) <<< 48)
  encoded

/-- `void decode_integer(uint64_t encoded, uint16_t& value, uint16_t& index,
uint16_t& flags, uint16_t& checksum)`: the four out-parameters are returned as
the tuple `(value, index, flags, checksum)`. -/
def decode_integer (encoded : Nat) : Nat × Nat × Nat × Nat :=
  (encoded &&& 0xFFFF, (encoded >>> 16) &&& 0xFFFF, (encoded >>> 32) &&& 0xFFFF,
    (encoded >>> 48) &&& 0xFFFF)

/-- `bool validate_checksum(uint16_t value, uint16_t index, uint16_t checksum)`. -/
def validate_checksum (value index checksum : Nat) : Bool :=
  crc16 value index == checksum

/-! ## Predicate evaluator -/

/-- `struct QueryCriteria`: four `int` bounds, a `uint16_t` mask and a `bool`. -/
structure QueryCriteria where
  min_value : Int
  max_value : Int
  min_index : Int
  max_index : Int
  flag_mask : Nat
  checksum_validation : Bool

/-- The constructor `QueryCriteria()` (source line 90). -/
def QueryCriteria.default : QueryCriteria :=
  { min_value := 0, max_value := 65535, min_index := 0, max_index := 65535,
    flag_mask := 0, checksum_validation := false }

/-- `bool matches_criteria(uint64_t encoded, const QueryCriteria& criteria)`.
The `uint16_t` fields are promoted to `int` for the range comparisons. -/
def matches_criteria (encoded : Nat) (criteria : QueryCriteria) : Bool :=
  match decode_integer encoded with
  | (value, index, flags, checksum) =>
    if (value : Int) < criteria.min_value ∨ (value : Int) > criteria.max_value then
      false
    else if (index : Int) < criteria.min_index ∨ (index : Int) > criteria.max_index then
      false
    else if criteria.flag_mask ≠ 0 ∧ (flags &&& criteria.flag_mask) ≠ criteria.flag_mask then
      false
    else if criteria.checksum_validation = true ∧ ¬ (validate_checksum value index checksum = true) then
      false
    else
      true

/-! ## Positional search -/

/-- Conversion of an unsigned word to `int`: reduction modulo `2 ^ 32` into
the two's complement range. -/
def to_int (x : Nat) : Int :=
  ((x : Int) + 2 ^ 31) % 2 ^ 32 - 2 ^ 31

/-- The locals `left`, `right`, `result` of `binary_search_memory_mapped`,
together with the list of slot numbers read so far (in reading order). -/
structure SearchState where
  left : Int
  right : Int
  result : Int
  probes : List Int
  deriving DecidableEq

/-- One execution of the body of the `while` loop (source lines 132-140).
`Int.tdiv` is the truncating division of C++; the `int` locals are modelled
as unbounded integers. -/
def search_body (data : Nat → Nat) (criteria : QueryCriteria) (s : SearchState) :
    SearchState :=
  let mid := s.left + Int.tdiv (s.right - s.left) 2
  if matches_criteria (data mid.toNat) criteria = true then
    { left := s.left, right := mid - 1, result := mid, probes := s.probes ++ [mid] }
  else if data mid.toNat > 0 then
    { left := mid + 1, right := s.right, result := s.result, probes := s.probes ++ [mid] }
  else
    { left := s.left, right := mid - 1, result := s.result, probes := s.probes ++ [mid] }

/-- The loop `while (left <= right)` (source lines 131-141), run for at most
`fuel` executions of its body: `none` when the loop condition still holds after
that many, otherwise the state in which the loop is left. -/
def search_loop (data : Nat → Nat) (criteria : QueryCriteria) :
    Nat → SearchState → Option SearchState
  | 0, s => if s.left ≤ s.right then none else some s
  | fuel + 1, s =>
    if s.left ≤ s.right then
      search_loop data criteria fuel (search_body data criteria s)
    else
      some s

/-- The state in which `binary_search_memory_mapped` leaves its loop.
`num_integers` is a `size_t`, so `num_integers - 1` is computed modulo
`2 ^ 64` before it is converted to `int`.  The loop is given `num_integers`
executions of its body, which always suffice (`binary_search_run_terminates`). -/
def binary_search_run (data : Nat → Nat) (num_integers : Nat)
    (criteria : QueryCriteria) : Option SearchState :=
  search_loop data criteria num_integers
    { left := 0, right := to_int ((num_integers + 2 ^ 64 - 1) % 2 ^ 64), result := -1,
      probes := [] }

/-- `int binary_search_memory_mapped(uint64_t* data, size_t num_integers,
const QueryCriteria& criteria)`: the value returned, `none` if the loop has
not finished. -/
def binary_search_memory_mapped (data : Nat → Nat) (num_integers : Nat)
    (criteria : QueryCriteria) : Option Int :=
  (binary_search_run data num_integers criteria).map SearchState.result

/-- The slot numbers `binary_search_memory_mapped` reads, in reading order. -/
def binary_search_probes (data : Nat → Nat) (num_integers : Nat)
    (criteria : QueryCriteria) : Option (List Int) :=
  (binary_search_run data num_integers criteria).map SearchState.probes

/-- The ten-slot store of the worked example: zero everywhere except
slot 7, which holds `encode_integer(150, 7, 0x0008)`. -/
def example_store (i : Nat) : Nat :=
  if i = 7 then encode_integer 150 7 0x0008 else 0

/-- The query of the worked example. -/
def example_query : QueryCriteria :=
  { min_value := 100, max_value := 200, min_index := 5, max_index := 10000,
    flag_mask := 0x0008, checksum_validation := true }

/-- The values of `left`, `right`, `result` before the loop (source lines
127-129); `binary_search_run` starts its loop from this state. -/
def initial_state (num_integers : Nat) : SearchState :=
  { left := 0, right := to_int ((num_integers + 2 ^ 64 - 1) % 2 ^ 64), result := -1,
    probes := [] }

/-- The range of a 32-bit signed `int`. -/
def in_int_range (x : Int) : Prop :=
  -2 ^ 31 ≤ x ∧ x ≤ 2 ^ 31 - 1

/-- The midpoint `left + (right - left) / 2` that the loop body reads in the
state `s`. -/
def search_mid (s : SearchState) : Int :=
  s.left + Int.tdiv (s.right - s.left) 2

/-- Safety of one read: in a state in which the loop body is entered on a
store of `n` slots, the midpoint lies between the bounds, the bounds lie
inside the store, and every `int` value the body computes is in range. -/
def probe_safe (n : Nat) (s : SearchState) : Prop :=
  0 ≤ s.left ∧ s.left ≤ search_mid s ∧ search_mid s ≤ s.right ∧ s.right ≤ (n : Int) - 1 ∧
    in_int_range (s.right - s.left) ∧ in_int_range (Int.tdiv (s.right - s.left) 2) ∧
    in_int_range (search_mid s) ∧ in_int_range (search_mid s + 1) ∧
    in_int_range (search_mid s - 1)

/-- The invariant of the search loop on a store of `n` slots: the bounds stay
inside the store, every slot read is a slot of the store, `result` is -1 or a
matching slot that was read and lies right of `right`, and no matching slot
that was read lies left of `result`. -/
def search_inv (data : Nat → Nat) (n : Nat) (q : QueryCriteria) (s : SearchState) : Prop :=
  0 ≤ s.left ∧ s.right < (n : Int) ∧
    (s.result = -1 ∨
      (0 ≤ s.result ∧ s.result < (n : Int) ∧
        matches_criteria (data s.result.toNat) q = true ∧ s.result ∈ s.probes ∧
        s.right < s.result)) ∧
    (∀ m ∈ s.probes, 0 ≤ m ∧ m < (n : Int)) ∧
    (∀ m ∈ s.probes, matches_criteria (data m.toNat) q = true →
      s.result ≠ -1 ∧ s.result ≤ m)

/-- A store laid out as the pruning rule expects: three nonzero words that do
not match `example_query`, then a matching word in slot 3, then zeros. -/
def layout_store (i : Nat) : Nat :=
  if i < 3 then encode_integer 50 7 0x0008
  else if i = 3 then encode_integer 150 7 0x0008
  else 0

/-- Three nonzero words that do not match `example_query`, then zeros. -/
def layout_store_no_match (i : Nat) : Nat :=
  if i < 3 then encode_integer 50 7 0x0008 else 0

/-- A store in which every slot holds `encode_integer(150, 7, 0x0008)`. -/
def uniform_store (_i : Nat) : Nat :=
  encode_integer 150 7 0x0008

/-! ## The data set and the query built by `main` -/

/-- `const size_t numIntegers = 10000000` (source line 153). -/
def numIntegers : Nat := 10000000

/-- Line `i` of `dataset.txt`, as written by source lines 155-156. -/
def dataset_line (i : Nat) : Nat :=
  i % 65536

/-- The mapped region after the population loop (source lines 196-203): slot
`integer_index` below `numIntegers` holds the encoding of the line read, with
`index` the slot number truncated to `uint16_t`; the rest of the freshly
truncated file is zero. -/
def mapped_data (integer_index : Nat) : Nat :=
  if integer_index < numIntegers then
    let value := dataset_line integer_index % 65536
    let index := integer_index % 65536
    let flags := if index % 2 = 0 then 0x0008 else 0x0000
    encode_integer value index flags
  else
    0

/-- The query built by `main` (source lines 208-214). -/
def main_query : QueryCriteria :=
  { QueryCriteria.default with
    min_value := 100, max_value := 200, min_index := 5000, max_index := 10000,
    flag_mask := 0x0008, checksum_validation := true }

/-! ## Bit-level facts about the codec -/

theorem mask16_eq_mod (x : Nat) : x &&& 0xFFFF = x % 65536 :=
  Nat.and_pow_two_sub_one_eq_mod x 16

theorem or_shiftLeft_eq_add (a b k : Nat) (ha : a < 2 ^ k) :
    a ||| (b <<< k) = a + b * 2 ^ k := by
  rw [Nat.shiftLeft_eq, Nat.or_comm, Nat.mul_comm b, ← Nat.mul_add_lt_is_or ha,
    Nat.add_comm]

theorem crc16_lt (value index : Nat) : crc16 value index < 65536 := by
  unfold crc16
  exact Nat.mod_lt _ (by decide)

/-- The packed word as a sum of its four shifted fields. -/
theorem encode_integer_eq_sum (v p f : Nat) (hv : v < 65536) (hp : p < 65536)
    (hf : f < 65536) :
    encode_integer v p f = v + p * 2 ^ 16 + f * 2 ^ 32 + crc16 v p * 2 ^ 48 := by
  have hc := crc16_lt v p
  unfold encode_integer
  simp only [mask16_eq_mod, Nat.zero_or, Nat.mod_eq_of_lt hv, Nat.mod_eq_of_lt hp,
    Nat.mod_eq_of_lt hf, Nat.mod_eq_of_lt hc]
  rw [or_shiftLeft_eq_add v p 16 (by omega),
    or_shiftLeft_eq_add _ f 32 (by omega),
    or_shiftLeft_eq_add _ _ 48 (by omega)]

/-- The four fields of a word, by division and remainder. -/
theorem decode_integer_eq_div_mod (r : Nat) :
    decode_integer r
      = (r % 65536, r / 2 ^ 16 % 65536, r / 2 ^ 32 % 65536, r / 2 ^ 48 % 65536) := by
  unfold decode_integer
  simp only [mask16_eq_mod, Nat.shiftRight_eq_div_pow]

theorem decode_encode (v p f : Nat) (hv : v < 65536) (hp : p < 65536) (hf : f < 65536) :
    decode_integer (encode_integer v p f) = (v, p, f, crc16 v p) := by
  have hc := crc16_lt v p
  rw [decode_integer_eq_div_mod, encode_integer_eq_sum v p f hv hp hf]
  generalize crc16 v p = c at hc
  refine Prod.ext ?_ (Prod.ext ?_ (Prod.ext ?_ ?_)) <;> simp only [] <;> omega

/-! ## The checksum determines the message `value ^^^ index` -/

theorem shiftRight_one_lt (x : Nat) (hx : x < 65536) : x >>> 1 < 32768 := by
  rw [Nat.shiftRight_eq_div_pow]; omega

theorem crc16_round_lt (x : Nat) (hx : x < 65536) : crc16_round x < 65536 := by
  have h1 : x >>> 1 < 2 ^ 16 := by have := shiftRight_one_lt x hx; omega
  unfold crc16_round
  split_ifs
  · exact Nat.xor_lt_two_pow h1 (by decide)
  · exact h1

theorem testBit15_shiftRight_one (x : Nat) (hx : x < 65536) :
    (x >>> 1).testBit 15 = false := by
  rw [Nat.testBit_shiftRight]
  exact Nat.testBit_lt_two_pow hx

theorem crc16_round_injective (x y : Nat) (hx : x < 65536) (hy : y < 65536)
    (h : crc16_round x = crc16_round y) : x = y := by
  have bx := testBit15_shiftRight_one x hx
  have by' := testBit15_shiftRight_one y hy
  have hm : Nat.testBit 0x8408 15 = true := by decide
  unfold crc16_round at h
  simp only [Nat.and_one_is_mod] at h
  have key : x >>> 1 = y >>> 1 → x % 2 = y % 2 → x = y := by
    intro h1 h2
    simp only [Nat.shiftRight_eq_div_pow] at h1
    omega
  split_ifs at h with h1 h2 h2
  · exact key (Nat.xor_left_injective h) (by omega)
  · exfalso
    have := congrArg (fun z => Nat.testBit z 15) h
    simp [Nat.testBit_xor, bx, by', hm] at this
  · exfalso
    have := congrArg (fun z => Nat.testBit z 15) h
    simp [Nat.testBit_xor, bx, by', hm] at this
  · exact key h (by omega)

theorem crc16_loop_succ (k crc data : Nat) (hc : crc < 65536) (hd : data < 65536) :
    ∃ crc1, crc1 < 65536 ∧ crc16_loop (k + 1) crc data = crc16_loop k crc1 (data >>> 1) ∧
      crc1 ^^^ (data >>> 1) = crc16_round (crc ^^^ data) := by
  have h1 : crc >>> 1 < 65536 := by have := shiftRight_one_lt crc hc; omega
  have h2 : (crc >>> 1) ^^^ 0x8408 < 65536 := @Nat.xor_lt_two_pow _ _ 16 h1 (by decide)
  have h3 : data >>> 1 < 65536 := by have := shiftRight_one_lt data hd; omega
  have hx : (crc ^^^ data) >>> 1 = (crc >>> 1) ^^^ (data >>> 1) := by
    simp only [Nat.shiftRight_eq_div_pow, pow_one, Nat.xor_div_two]
  by_cases hb : (crc ^^^ data) &&& 0x0001 ≠ 0
  · refine ⟨(crc >>> 1) ^^^ 0x8408, h2, ?_, ?_⟩
    · rw [crc16_loop, if_pos hb, Nat.mod_eq_of_lt h2, Nat.mod_eq_of_lt h3]
    · rw [crc16_round, if_pos hb, hx, Nat.xor_assoc, Nat.xor_assoc,
        Nat.xor_comm (data >>> 1)]
  · refine ⟨crc >>> 1, h1, ?_, ?_⟩
    · rw [crc16_loop, if_neg hb, Nat.mod_eq_of_lt h1, Nat.mod_eq_of_lt h3]
    · rw [crc16_round, if_neg hb, hx]

theorem crc16_loop_injective (k : Nat) :
    ∀ c c' d d' : Nat, c < 65536 → c' < 65536 → d < 65536 → d' < 65536 →
      crc16_loop k c d ^^^ (d >>> k) = crc16_loop k c' d' ^^^ (d' >>> k) →
      c ^^^ d = c' ^^^ d' := by
  induction k with
  | zero =>
    intro c c' d d' _ _ _ _ h
    simpa [crc16_loop] using h
  | succ k ih =>
    intro c c' d d' hc hc' hd hd' h
    obtain ⟨c1, hc1, e1, r1⟩ := crc16_loop_succ k c d hc hd
    obtain ⟨c1', hc1', e1', r1'⟩ := crc16_loop_succ k c' d' hc' hd'
    have s : ∀ x : Nat, x >>> (k + 1) = (x >>> 1) >>> k := by
      intro x; rw [← Nat.shiftRight_add, Nat.add_comm]
    rw [e1, e1', s d, s d'] at h
    have hd1 : d >>> 1 < 65536 := by have := shiftRight_one_lt d hd; omega
    have hd1' : d' >>> 1 < 65536 := by have := shiftRight_one_lt d' hd'; omega
    have := ih c1 c1' (d >>> 1) (d' >>> 1) hc1 hc1' hd1 hd1' h
    rw [r1, r1'] at this
    exact crc16_round_injective _ _ (@Nat.xor_lt_two_pow _ _ 16 hc hd)
      (@Nat.xor_lt_two_pow _ _ 16 hc' hd') this

theorem crc16_loop_lt (k : Nat) : ∀ c d : Nat, c < 65536 → crc16_loop k c d < 65536 := by
  induction k with
  | zero => intro c d hc; simpa [crc16_loop] using hc
  | succ k ih =>
    intro c d hc
    rw [crc16_loop]
    split_ifs
    · exact ih _ _ (Nat.mod_lt _ (by decide))
    · exact ih _ _ (Nat.mod_lt _ (by decide))

theorem crc16_injective (v p v' p' : Nat) (hv : v < 65536) (hp : p < 65536)
    (hv' : v' < 65536) (hp' : p' < 65536) (h : crc16 v p = crc16 v' p') :
    v ^^^ p = v' ^^^ p' := by
  have hd : v ^^^ p < 65536 := @Nat.xor_lt_two_pow _ _ 16 hv hp
  have hd' : v' ^^^ p' < 65536 := @Nat.xor_lt_two_pow _ _ 16 hv' hp'
  unfold crc16 at h
  simp only [Nat.mod_eq_of_lt hd, Nat.mod_eq_of_lt hd'] at h
  have l := crc16_loop_lt 16 0xFFFF (v ^^^ p) (by decide)
  have l' := crc16_loop_lt 16 0xFFFF (v' ^^^ p') (by decide)
  rw [Nat.mod_eq_of_lt (@Nat.xor_lt_two_pow _ _ 16 l (by decide)),
    Nat.mod_eq_of_lt (@Nat.xor_lt_two_pow _ _ 16 l' (by decide))] at h
  have h2 := Nat.xor_left_injective h
  have z : ∀ x : Nat, x < 65536 → x >>> 16 = 0 := by
    intro x hx; rw [Nat.shiftRight_eq_div_pow]; omega
  have := crc16_loop_injective 16 0xFFFF 0xFFFF (v ^^^ p) (v' ^^^ p') (by decide) (by decide)
    hd hd' (by rw [z _ hd, z _ hd', h2])
  exact Nat.xor_right_injective this

/-! ## Claims C1 to C3 -/

/-- C1: round trip. For all 16-bit `v`, `p`, `f`, decoding the word produced by
`encode_integer v p f` yields exactly `(v, p, f, crc16 v p)`. -/
theorem C1_decode_encode_round_trip (v p f : Nat) (hv : v < 65536) (hp : p < 65536)
    (hf : f < 65536) :
    decode_integer (encode_integer v p f) = (v, p, f, crc16 v p) :=
  decode_encode v p f hv hp hf

theorem C1_decode_encode_round_trip_witness :
    (150 < 65536 ∧ 7 < 65536 ∧ 8 < 65536) ∧
      decode_integer (encode_integer 150 7 8) = (150, 7, 8, crc16 150 7) :=
  ⟨by decide, C1_decode_encode_round_trip 150 7 8 (by decide) (by decide) (by decide)⟩

/-- C2: bit layout. For all 16-bit `v`, `p`, `f`, the packed word is
`v + p * 2^16 + f * 2^32 + crc16 v p * 2^48`; every field is below `2^16`, so
the value sits in bits 0-15, the position in bits 16-31, the flags in bits
32-47 and the checksum in bits 48-63, none overlapping another, and the word
is below `2^64`. -/
theorem C2_encode_bit_layout (v p f : Nat) (hv : v < 65536) (hp : p < 65536)
    (hf : f < 65536) :
    encode_integer v p f = v + p * 2 ^ 16 + f * 2 ^ 32 + crc16 v p * 2 ^ 48 ∧
      crc16 v p < 2 ^ 16 ∧ encode_integer v p f < 2 ^ 64 ∧
      encode_integer v p f % 2 ^ 16 = v ∧
      encode_integer v p f / 2 ^ 16 % 2 ^ 16 = p ∧
      encode_integer v p f / 2 ^ 32 % 2 ^ 16 = f ∧
      encode_integer v p f / 2 ^ 48 = crc16 v p := by
  have hc := crc16_lt v p
  have he := encode_integer_eq_sum v p f hv hp hf
  generalize crc16 v p = c at hc he
  generalize encode_integer v p f = e at he
  refine ⟨he, by omega, by omega, by omega, by omega, by omega, by omega⟩

theorem C2_encode_bit_layout_witness :
    (150 < 65536 ∧ 7 < 65536 ∧ 8 < 65536) ∧
      (encode_integer 150 7 8 = 150 + 7 * 2 ^ 16 + 8 * 2 ^ 32 + crc16 150 7 * 2 ^ 48 ∧
      crc16 150 7 < 2 ^ 16 ∧ encode_integer 150 7 8 < 2 ^ 64 ∧
      encode_integer 150 7 8 % 2 ^ 16 = 150 ∧
      encode_integer 150 7 8 / 2 ^ 16 % 2 ^ 16 = 7 ∧
      encode_integer 150 7 8 / 2 ^ 32 % 2 ^ 16 = 8 ∧
      encode_integer 150 7 8 / 2 ^ 48 = crc16 150 7) :=
  ⟨by decide, C2_encode_bit_layout 150 7 8 (by decide) (by decide) (by decide)⟩

/-- C3: codec integrity. For all 16-bit `v`, `p`, `f`, the word
`encode_integer v p f` passes its own checksum check: if it decodes to
`(v1, p1, f1, c1)` then `validate_checksum v1 p1 c1` is true. -/
theorem C3_encoded_record_validates (v p f : Nat) (hv : v < 65536) (hp : p < 65536)
    (hf : f < 65536) (v1 p1 f1 c1 : Nat)
    (hd : decode_integer (encode_integer v p f) = (v1, p1, f1, c1)) :
    validate_checksum v1 p1 c1 = true := by
  rw [decode_encode v p f hv hp hf] at hd
  simp only [Prod.mk.injEq] at hd
  obtain ⟨rfl, rfl, rfl, rfl⟩ := hd
  simp [validate_checksum]

theorem C3_encoded_record_validates_witness :
    (150 < 65536 ∧ 7 < 65536 ∧ 8 < 65536 ∧
      decode_integer (encode_integer 150 7 8) = (150, 7, 8, 4034)) ∧
      validate_checksum 150 7 4034 = true :=
  ⟨⟨by decide, by decide, by decide, by decide⟩,
    C3_encoded_record_validates 150 7 8 (by decide) (by decide) (by decide) 150 7 8 4034
      (by decide)⟩

/-! ## The predicate, field by field -/

/-- `matches_criteria` accepts a word exactly when its decoded fields pass the
four tests of the source, in the order they are made. -/
theorem matches_criteria_iff (r : Nat) (q : QueryCriteria) (v p f c : Nat)
    (hd : decode_integer r = (v, p, f, c)) :
    matches_criteria r q = true ↔
      (q.min_value ≤ (v : Int) ∧ (v : Int) ≤ q.max_value) ∧
      (q.min_index ≤ (p : Int) ∧ (p : Int) ≤ q.max_index) ∧
      (q.flag_mask = 0 ∨ f &&& q.flag_mask = q.flag_mask) ∧
      (q.checksum_validation = false ∨ crc16 v p = c) := by
  have hval : validate_checksum v p c = true ↔ crc16 v p = c := by
    simp [validate_checksum]
  unfold matches_criteria
  rw [hd]
  simp only []
  by_cases h1 : (v : Int) < q.min_value ∨ (v : Int) > q.max_value
  · rw [if_pos h1]
    constructor
    · intro h; cases h
    · rintro ⟨⟨a, b⟩, -⟩; omega
  rw [if_neg h1]
  by_cases h2 : (p : Int) < q.min_index ∨ (p : Int) > q.max_index
  · rw [if_pos h2]
    constructor
    · intro h; cases h
    · rintro ⟨-, ⟨a, b⟩, -⟩; omega
  rw [if_neg h2]
  by_cases h3 : q.flag_mask ≠ 0 ∧ f &&& q.flag_mask ≠ q.flag_mask
  · rw [if_pos h3]
    constructor
    · intro h; cases h
    · rintro ⟨-, -, hf | hf, -⟩
      · exact absurd hf h3.1
      · exact absurd hf h3.2
  rw [if_neg h3]
  by_cases h4 : q.checksum_validation = true ∧ ¬ (validate_checksum v p c = true)
  · rw [if_pos h4]
    constructor
    · intro h; cases h
    · rintro ⟨-, -, -, hc | hc⟩
      · rw [h4.1] at hc; cases hc
      · exact absurd (hval.mpr hc) h4.2
  rw [if_neg h4]
  simp only [true_iff]
  refine ⟨⟨by omega, by omega⟩, ⟨by omega, by omega⟩, ?_, ?_⟩
  · by_cases hz : q.flag_mask = 0
    · exact Or.inl hz
    · exact Or.inr (by_contra fun hne => h3 ⟨hz, hne⟩)
  · cases hcv : q.checksum_validation
    · exact Or.inl rfl
    · exact Or.inr (by_contra fun hne => h4 ⟨hcv, fun hv => hne (hval.mp hv)⟩)

/-! ## The search loop -/

theorem search_loop_step (data : Nat → Nat) (q : QueryCriteria) (fuel : Nat)
    (s : SearchState) (h : s.left ≤ s.right) :
    search_loop data q (fuel + 1) s = search_loop data q fuel (search_body data q s) := by
  rw [search_loop, if_pos h]

theorem search_loop_done (data : Nat → Nat) (q : QueryCriteria) (fuel : Nat)
    (s : SearchState) (h : ¬ s.left ≤ s.right) : search_loop data q fuel s = some s := by
  cases fuel <;> rw [search_loop, if_neg h]

/-- The three branches of the loop body, with the midpoint between the bounds. -/
theorem search_body_cases (data : Nat → Nat) (q : QueryCriteria) (s : SearchState)
    (h : s.left ≤ s.right) :
    ∃ mid : Int, mid = s.left + (s.right - s.left) / 2 ∧ s.left ≤ mid ∧ mid ≤ s.right ∧
      ((matches_criteria (data mid.toNat) q = true ∧
          search_body data q s =
            { left := s.left, right := mid - 1, result := mid,
              probes := s.probes ++ [mid] }) ∨
        (matches_criteria (data mid.toNat) q = false ∧ 0 < data mid.toNat ∧
          search_body data q s =
            { left := mid + 1, right := s.right, result := s.result,
              probes := s.probes ++ [mid] }) ∨
        (matches_criteria (data mid.toNat) q = false ∧ data mid.toNat = 0 ∧
          search_body data q s =
            { left := s.left, right := mid - 1, result := s.result,
              probes := s.probes ++ [mid] })) := by
  have h0 : (0 : Int) ≤ s.right - s.left := sub_nonneg.mpr h
  have hd : Int.tdiv (s.right - s.left) 2 = (s.right - s.left) / 2 :=
    Int.tdiv_eq_ediv h0 (by decide)
  refine ⟨s.left + (s.right - s.left) / 2, rfl, by omega, by omega, ?_⟩
  unfold search_body
  simp only [hd]
  by_cases hm : matches_criteria (data (s.left + (s.right - s.left) / 2).toNat) q = true
  · left
    exact ⟨hm, by rw [if_pos hm]⟩
  · right
    have hm' : matches_criteria (data (s.left + (s.right - s.left) / 2).toNat) q = false := by
      simpa using hm
    by_cases hz : data (s.left + (s.right - s.left) / 2).toNat > 0
    · left
      exact ⟨hm', hz, by rw [if_neg hm, if_pos hz]⟩
    · right
      exact ⟨hm', by omega, by rw [if_neg hm, if_neg hz]⟩

/-- The initial right bound: `num_integers - 1`, also for an empty store. -/
theorem initial_right (n : Nat) (hn : n ≤ 2 ^ 31 - 1) :
    to_int ((n + 2 ^ 64 - 1) % 2 ^ 64) = (n : Int) - 1 := by
  unfold to_int
  omega

/-- When no slot of the store matches, the loop finishes and leaves `result`
untouched. -/
theorem search_loop_result_of_no_match (data : Nat → Nat) (n : Nat) (q : QueryCriteria)
    (hno : ∀ i : Nat, i < n → matches_criteria (data i) q = false) :
    ∀ (fuel : Nat) (s : SearchState), (s.right - s.left + 1).toNat ≤ fuel → 0 ≤ s.left →
      s.right < (n : Int) →
      ∃ t, search_loop data q fuel s = some t ∧ t.result = s.result := by
  intro fuel
  induction fuel with
  | zero =>
    intro s hw _ _
    exact ⟨s, search_loop_done data q 0 s (by omega), rfl⟩
  | succ fuel ih =>
    intro s hw hl hr
    by_cases h : s.left ≤ s.right
    · rw [search_loop_step data q fuel s h]
      obtain ⟨mid, -, h1, h2, hc⟩ := search_body_cases data q s h
      have hmid : matches_criteria (data mid.toNat) q = false := hno _ (by omega)
      rcases hc with ⟨ht, -⟩ | ⟨-, -, e⟩ | ⟨-, -, e⟩
      · rw [hmid] at ht; cases ht
      · rw [e]
        exact ih _ (by simp only []; omega) (by simp only []; omega) hr
      · rw [e]
        exact ih _ (by simp only []; omega) hl (by simp only []; omega)
    · exact ⟨s, search_loop_done data q _ s h, rfl⟩

theorem search_not_found_of_no_match (data : Nat → Nat) (n : Nat) (q : QueryCriteria)
    (hn : n ≤ 2 ^ 31 - 1)
    (hno : ∀ i : Nat, i < n → matches_criteria (data i) q = false) :
    binary_search_memory_mapped data n q = some (-1) := by
  obtain ⟨t, ht, hres⟩ := search_loop_result_of_no_match data n q hno n
    { left := 0, right := (n : Int) - 1, result := -1, probes := [] }
    (by simp only []; omega) (le_refl _) (sub_one_lt _)
  rw [binary_search_memory_mapped, binary_search_run, initial_right n hn, ht]
  simp only [Option.map_some'] at *
  rw [hres]

/-- The loop finishes within as many executions of its body as there are
candidate slots, and it is left with the bounds crossed. -/
theorem search_loop_terminates (data : Nat → Nat) (q : QueryCriteria) :
    ∀ (fuel : Nat) (s : SearchState), (s.right - s.left + 1).toNat ≤ fuel →
      ∃ t, search_loop data q fuel s = some t ∧ t.right < t.left := by
  intro fuel
  induction fuel with
  | zero =>
    intro s hw
    exact ⟨s, search_loop_done data q 0 s (by omega), by omega⟩
  | succ fuel ih =>
    intro s hw
    by_cases h : s.left ≤ s.right
    · rw [search_loop_step data q fuel s h]
      obtain ⟨mid, -, h1, h2, hc⟩ := search_body_cases data q s h
      rcases hc with ⟨-, e⟩ | ⟨-, -, e⟩ | ⟨-, -, e⟩ <;> rw [e] <;>
        exact ih _ (by simp only []; omega)
    · exact ⟨s, search_loop_done data q _ s h, by omega⟩

/-- The `num_integers` executions granted by `binary_search_run` always
suffice: the search returns. -/
theorem binary_search_run_terminates (data : Nat → Nat) (n : Nat) (q : QueryCriteria) :
    ∃ t, binary_search_run data n q = some t := by
  obtain ⟨t, ht, -⟩ := search_loop_terminates data q n
    { left := 0, right := to_int ((n + 2 ^ 64 - 1) % 2 ^ 64), result := -1, probes := [] }
    (by simp only [to_int]; omega)
  exact ⟨t, ht⟩

theorem validate_checksum_iff (v p c : Nat) :
    validate_checksum v p c = true ↔ crc16 v p = c := by
  simp [validate_checksum]

/-- A matching word has its value field inside the value range of the query. -/
theorem value_in_range_of_matches (r : Nat) (q : QueryCriteria)
    (h : matches_criteria r q = true) :
    q.min_value ≤ ((decode_integer r).1 : Int) ∧ ((decode_integer r).1 : Int) ≤ q.max_value :=
  ((matches_criteria_iff r q (decode_integer r).1 (decode_integer r).2.1
    (decode_integer r).2.2.1 (decode_integer r).2.2.2 rfl).mp h).1

theorem two_pow_lt_of_le_15 (k : Nat) (hk : k ≤ 15) : 2 ^ k < 65536 := by
  have : 2 ^ k < 2 ^ 16 := Nat.pow_lt_pow_right (by decide) (by omega)
  simpa using this

/-- Flipping one bit of the message changes the checksum. -/
theorem crc16_flip_ne (v p v1 p1 k : Nat) (hv : v < 65536) (hp : p < 65536)
    (hv1 : v1 < 65536) (hp1 : p1 < 65536) (hx : v1 ^^^ p1 = (v ^^^ p) ^^^ 2 ^ k) :
    crc16 v1 p1 ≠ crc16 v p := by
  intro h
  have e := crc16_injective v1 p1 v p hv1 hp1 hv hp h
  rw [hx] at e
  have e2 : (v ^^^ p) ^^^ 2 ^ k = (v ^^^ p) ^^^ 0 := by rw [e, Nat.xor_zero]
  have e3 : 2 ^ k = 0 := Nat.xor_right_injective e2
  have : 0 < 2 ^ k := Nat.pow_pos (by decide)
  omega

/-! ## Claims C4 to C10 -/

/-- C4: search correctness (returns the lowest matching slot, or -1 when there
is none) fails on the worked example of the claim. In the ten-slot store that is
zero except for slot 7 = `encode_integer 150 7 0x0008`, slot 7 matches the query
and is the only slot that does, yet `binary_search_memory_mapped` reads slots
4, 1, 0 only and returns -1 instead of 7. -/
theorem C4_search_misses_first_match :
    matches_criteria (example_store 7) example_query = true ∧
      (∀ i : Nat, i < 10 → i ≠ 7 → matches_criteria (example_store i) example_query = false) ∧
      binary_search_memory_mapped example_store 10 example_query = some (-1) ∧
      binary_search_probes example_store 10 example_query = some [4, 1, 0] := by
  decide

/-- C5: predicate definition. For every word `r` that decodes to `(v, p, f, c)`
and every query `q`, `matches_criteria r q` is true exactly when
`min_value <= v <= max_value`, `min_index <= p <= max_index`,
`flag_mask = 0` or `f AND flag_mask = flag_mask`, and `checksum_validation` is
false or `crc16 v p = c`. -/
theorem C5_matches_criteria_definition (r : Nat) (q : QueryCriteria) (v p f c : Nat)
    (hd : decode_integer r = (v, p, f, c)) :
    matches_criteria r q = true ↔
      (q.min_value ≤ (v : Int) ∧ (v : Int) ≤ q.max_value) ∧
      (q.min_index ≤ (p : Int) ∧ (p : Int) ≤ q.max_index) ∧
      (q.flag_mask = 0 ∨ f &&& q.flag_mask = q.flag_mask) ∧
      (q.checksum_validation = false ∨ crc16 v p = c) :=
  matches_criteria_iff r q v p f c hd

theorem C5_matches_criteria_definition_witness :
    decode_integer 1135470090410983574 = (150, 7, 8, 4034) ∧
      (matches_criteria 1135470090410983574 example_query = true ↔
        (example_query.min_value ≤ ((150 : Nat) : Int) ∧
          ((150 : Nat) : Int) ≤ example_query.max_value) ∧
        (example_query.min_index ≤ ((7 : Nat) : Int) ∧
          ((7 : Nat) : Int) ≤ example_query.max_index) ∧
        (example_query.flag_mask = 0 ∨ 8 &&& example_query.flag_mask = example_query.flag_mask) ∧
        (example_query.checksum_validation = false ∨ crc16 150 7 = 4034)) :=
  ⟨by decide,
    C5_matches_criteria_definition 1135470090410983574 example_query 150 7 8 4034 (by decide)⟩

/-- C6, as stated, fails: the all-zero word decodes to `(0, 0, 0, 0)`, but
re-encoding value 0, position 0, flags 0 gives `3911 * 2^48`, not 0, because
`encode_integer` always stores `crc16 0 0 = 3911` in bits 48-63. -/
theorem C6_reencode_zero_word_differs :
    (0 : Nat) < 2 ^ 64 ∧ decode_integer 0 = (0, 0, 0, 0) ∧
      encode_integer 0 0 0 = 1100848633915375616 ∧ encode_integer 0 0 0 ≠ 0 := by
  decide

/-- C6, amended: `decode_integer` is defined on every 64-bit word `r` and
extracts four 16-bit fields `(v, p, f, c)`; re-encoding `v`, `p`, `f` reproduces
bits 0-47 of `r` and puts `crc16 v p` in bits 48-63, so that
`encode_integer v p f = r` exactly when `validate_checksum v p c` is true. -/
theorem C6_reencode_iff_checksum_valid (r v p f c : Nat) (hr : r < 2 ^ 64)
    (hd : decode_integer r = (v, p, f, c)) :
    (v < 65536 ∧ p < 65536 ∧ f < 65536 ∧ c < 65536) ∧
      encode_integer v p f % 2 ^ 48 = r % 2 ^ 48 ∧
      encode_integer v p f / 2 ^ 48 = crc16 v p ∧
      (encode_integer v p f = r ↔ validate_checksum v p c = true) := by
  rw [decode_integer_eq_div_mod] at hd
  simp only [Prod.mk.injEq] at hd
  obtain ⟨hv, hp, hf, hc⟩ := hd
  have bv : v < 65536 := by omega
  have bp : p < 65536 := by omega
  have bf : f < 65536 := by omega
  have bc : c < 65536 := by omega
  have hk := crc16_lt v p
  have he := encode_integer_eq_sum v p f bv bp bf
  rw [validate_checksum_iff]
  generalize crc16 v p = k at hk he ⊢
  generalize encode_integer v p f = e at he ⊢
  refine ⟨⟨bv, bp, bf, bc⟩, by omega, by omega, ?_, ?_⟩
  · intro h; omega
  · intro h; omega

theorem C6_reencode_iff_checksum_valid_witness :
    ((0 : Nat) < 2 ^ 64 ∧ decode_integer 0 = (0, 0, 0, 0)) ∧
      ((0 < 65536 ∧ 0 < 65536 ∧ 0 < 65536 ∧ 0 < 65536) ∧
        encode_integer 0 0 0 % 2 ^ 48 = 0 % 2 ^ 48 ∧
        encode_integer 0 0 0 / 2 ^ 48 = crc16 0 0 ∧
        (encode_integer 0 0 0 = 0 ↔ validate_checksum 0 0 0 = true)) :=
  ⟨by decide, C6_reencode_iff_checksum_valid 0 0 0 0 0 (by decide) (by decide)⟩

/-- C7: tamper detection of single-bit errors. For all 16-bit `v`, `p` and every
bit number `k` in 0..15, with `c = crc16 v p`, both
`validate_checksum (v XOR 2^k) p c` and `validate_checksum v (p XOR 2^k) c`
are false. -/
theorem C7_single_bit_flip_detected (v p k : Nat) (hv : v < 65536) (hp : p < 65536)
    (hk : k ≤ 15) :
    validate_checksum (v ^^^ 2 ^ k) p (crc16 v p) = false ∧
      validate_checksum v (p ^^^ 2 ^ k) (crc16 v p) = false := by
  have h2 := two_pow_lt_of_le_15 k hk
  have hv1 : v ^^^ 2 ^ k < 65536 := @Nat.xor_lt_two_pow _ _ 16 hv h2
  have hp1 : p ^^^ 2 ^ k < 65536 := @Nat.xor_lt_two_pow _ _ 16 hp h2
  constructor
  · rw [← Bool.not_eq_true, validate_checksum_iff]
    refine crc16_flip_ne v p (v ^^^ 2 ^ k) p k hv hp hv1 hp ?_
    rw [Nat.xor_assoc, Nat.xor_comm (2 ^ k) p, ← Nat.xor_assoc]
  · rw [← Bool.not_eq_true, validate_checksum_iff]
    refine crc16_flip_ne v p v (p ^^^ 2 ^ k) k hv hp hv hp1 ?_
    rw [Nat.xor_assoc]

theorem C7_single_bit_flip_detected_witness :
    (150 < 65536 ∧ 7 < 65536 ∧ 3 ≤ 15) ∧
      (validate_checksum (150 ^^^ 2 ^ 3) 7 (crc16 150 7) = false ∧
        validate_checksum 150 (7 ^^^ 2 ^ 3) (crc16 150 7) = false) :=
  ⟨by decide, C7_single_bit_flip_detected 150 7 3 (by decide) (by decide) (by decide)⟩

/-- C8: no match means not found. For every store of `n <= 2^31 - 1` words and
every query whose value range excludes the value field of every stored word,
`binary_search_memory_mapped` returns -1, whatever the other query fields are;
and -1 lies outside `[0, n)`, so it is not a slot number. -/
theorem C8_excluded_value_range_not_found (data : Nat → Nat) (n : Nat) (q : QueryCriteria)
    (hn : n ≤ 2 ^ 31 - 1)
    (hex : ∀ i : Nat, i < n →
      ¬ (q.min_value ≤ ((decode_integer (data i)).1 : Int) ∧
        ((decode_integer (data i)).1 : Int) ≤ q.max_value)) :
    binary_search_memory_mapped data n q = some (-1) ∧
      ¬ ((0 : Int) ≤ -1 ∧ (-1 : Int) < (n : Int)) := by
  refine ⟨search_not_found_of_no_match data n q hn ?_, by omega⟩
  intro i hi
  rw [← Bool.not_eq_true]
  exact fun h => hex i hi (value_in_range_of_matches (data i) q h)

theorem C8_excluded_value_range_not_found_witness :
    (10 ≤ 2 ^ 31 - 1 ∧
      ∀ i : Nat, i < 10 →
        ¬ ((300 : Int) ≤ ((decode_integer (example_store i)).1 : Int) ∧
          ((decode_integer (example_store i)).1 : Int) ≤ (400 : Int))) ∧
      (binary_search_memory_mapped example_store 10
          { min_value := 300, max_value := 400, min_index := 0, max_index := 65535,
            flag_mask := 0, checksum_validation := false } = some (-1) ∧
        ¬ ((0 : Int) ≤ -1 ∧ (-1 : Int) < ((10 : Nat) : Int))) :=
  ⟨by decide,
    C8_excluded_value_range_not_found example_store 10
      { min_value := 300, max_value := 400, min_index := 0, max_index := 65535,
        flag_mask := 0, checksum_validation := false } (by decide) (by decide)⟩

/-- C9: empty store. For every query, `binary_search_memory_mapped` on a store
of length 0 returns -1 without reading any slot: the initial right bound
computed from `num_integers - 1` is -1, so the loop body never runs. -/
theorem C9_empty_store_not_found (data : Nat → Nat) (q : QueryCriteria) :
    to_int ((0 + 2 ^ 64 - 1) % 2 ^ 64) = -1 ∧
      binary_search_run data 0 q
        = some { left := 0, right := -1, result := -1, probes := [] } ∧
      binary_search_memory_mapped data 0 q = some (-1) ∧
      binary_search_probes data 0 q = some [] := by
  have hr : to_int ((0 + 2 ^ 64 - 1) % 2 ^ 64) = -1 := by decide
  have hrun : binary_search_run data 0 q
      = some { left := 0, right := -1, result := -1, probes := [] } := by
    rw [binary_search_run, hr]
    exact search_loop_done data q 0 _ (by decide)
  refine ⟨hr, hrun, ?_, ?_⟩
  · rw [binary_search_memory_mapped, hrun]; rfl
  · rw [binary_search_probes, hrun]; rfl

/-- C10: range monotonicity of the predicate. For every word `r` and queries
`q`, `q1` with the same `flag_mask` and `checksum_validation` and with
`q1.min_value <= q.min_value`, `q1.max_value >= q.max_value`,
`q1.min_index <= q.min_index`, `q1.max_index >= q.max_index`: if
`matches_criteria r q` is true then `matches_criteria r q1` is true. -/
theorem C10_widening_ranges_keeps_match (r : Nat) (q q1 : QueryCriteria)
    (hmask : q1.flag_mask = q.flag_mask)
    (hcv : q1.checksum_validation = q.checksum_validation)
    (h1 : q1.min_value ≤ q.min_value) (h2 : q1.max_value ≥ q.max_value)
    (h3 : q1.min_index ≤ q.min_index) (h4 : q1.max_index ≥ q.max_index)
    (hm : matches_criteria r q = true) : matches_criteria r q1 = true := by
  have hd : decode_integer r = ((decode_integer r).1, (decode_integer r).2.1,
    (decode_integer r).2.2.1, (decode_integer r).2.2.2) := rfl
  obtain ⟨⟨a1, a2⟩, ⟨b1, b2⟩, hf, hc⟩ := (matches_criteria_iff r q _ _ _ _ hd).mp hm
  refine (matches_criteria_iff r q1 _ _ _ _ hd).mpr ⟨⟨by omega, by omega⟩, ⟨by omega, by omega⟩, ?_, ?_⟩
  · rw [hmask]; exact hf
  · rw [hcv]; exact hc

theorem C10_widening_ranges_keeps_match_witness :
    ((8 : Nat) = example_query.flag_mask ∧ true = example_query.checksum_validation ∧
      (0 : Int) ≤ example_query.min_value ∧ (65535 : Int) ≥ example_query.max_value ∧
      (0 : Int) ≤ example_query.min_index ∧ (65535 : Int) ≥ example_query.max_index ∧
      matches_criteria (example_store 7) example_query = true) ∧
    matches_criteria (example_store 7)
      { min_value := 0, max_value := 65535, min_index := 0, max_index := 65535,
        flag_mask := 0x0008, checksum_validation := true } = true :=
  ⟨by decide,
    C10_widening_ranges_keeps_match (example_store 7) example_query
      { min_value := 0, max_value := 65535, min_index := 0, max_index := 65535,
        flag_mask := 0x0008, checksum_validation := true }
      rfl rfl (by decide) (by decide) (by decide) (by decide) (by decide)⟩

/-! ## Further facts about the checksum and the predicate -/

/-- The checksum is computed from `value ^^^ index` alone. -/
theorem crc16_congr (v p v1 p1 : Nat) (h : v ^^^ p = v1 ^^^ p1) :
    crc16 v p = crc16 v1 p1 := by
  unfold crc16
  rw [h]

theorem xor_xor_cancel_mask (v p d : Nat) : (v ^^^ d) ^^^ (p ^^^ d) = v ^^^ p := by
  rw [Nat.xor_assoc, Nat.xor_comm p d, ← Nat.xor_assoc d d p, Nat.xor_self, Nat.zero_xor]

theorem decode_integer_fields_lt (r : Nat) :
    (decode_integer r).1 < 65536 ∧ (decode_integer r).2.1 < 65536 ∧
      (decode_integer r).2.2.1 < 65536 ∧ (decode_integer r).2.2.2 < 65536 := by
  rw [decode_integer_eq_div_mod]
  refine ⟨?_, ?_, ?_, ?_⟩ <;> simp only [] <;> omega

/-- A word is rejected as soon as its flags miss a bit of a nonzero mask. -/
theorem not_matches_of_flags_missing (r : Nat) (q : QueryCriteria)
    (hm : q.flag_mask ≠ 0)
    (hf : (decode_integer r).2.2.1 &&& q.flag_mask ≠ q.flag_mask) :
    matches_criteria r q = false := by
  rw [← Bool.not_eq_true]
  intro h
  rcases ((matches_criteria_iff r q _ _ _ _ rfl).mp h).2.2.1 with h0 | h1
  · exact hm h0
  · exact hf h1

/-- The checksum as a map of the sixteen-bit words to themselves. -/
theorem crc16_zero_surjective (c : Nat) (hc : c < 65536) :
    ∃ d, d < 65536 ∧ crc16 d 0 = c := by
  have hinj : Function.Injective
      (fun d : Fin 65536 => (⟨crc16 d.1 0, crc16_lt d.1 0⟩ : Fin 65536)) := by
    intro a b hab
    have h1 : crc16 a.1 0 = crc16 b.1 0 := congrArg Fin.val hab
    have h2 := crc16_injective a.1 0 b.1 0 a.2 (by decide) b.2 (by decide) h1
    simp only [Nat.xor_zero] at h2
    exact Fin.ext h2
  obtain ⟨d, hd⟩ := Finite.surjective_of_injective hinj ⟨c, hc⟩
  exact ⟨d.1, d.2, congrArg Fin.val hd⟩

/-! ## Claims C11 to C14 and C19 -/

/-- C11: flag-mask antitonicity. For every word `r` and queries `q`, `q1` that
differ only in `flag_mask`, where `q1.flag_mask` contains every bit of
`q.flag_mask` (`q1.flag_mask AND q.flag_mask = q.flag_mask`, the case
`q.flag_mask = 0` included): if `matches_criteria r q` is false then
`matches_criteria r q1` is false. -/
theorem C11_tightening_mask_keeps_mismatch (r : Nat) (q q1 : QueryCriteria)
    (e1 : q1.min_value = q.min_value) (e2 : q1.max_value = q.max_value)
    (e3 : q1.min_index = q.min_index) (e4 : q1.max_index = q.max_index)
    (e5 : q1.checksum_validation = q.checksum_validation)
    (hsub : q1.flag_mask &&& q.flag_mask = q.flag_mask)
    (hm : matches_criteria r q = false) : matches_criteria r q1 = false := by
  rw [← Bool.not_eq_true] at hm ⊢
  intro h1
  apply hm
  obtain ⟨hv, hp, hf, hc⟩ := (matches_criteria_iff r q1 _ _ _ _ rfl).mp h1
  refine (matches_criteria_iff r q _ _ _ _ rfl).mpr ⟨?_, ?_, ?_, ?_⟩
  · rw [← e1, ← e2]; exact hv
  · rw [← e3, ← e4]; exact hp
  · rcases hf with h0 | hf
    · left
      rw [← hsub, h0, Nat.zero_and]
    · right
      rw [← hsub, ← Nat.and_assoc, hf]
  · rw [← e5]; exact hc

theorem C11_tightening_mask_keeps_mismatch_witness :
    ((9 : Nat) &&& 1 = 1 ∧
      matches_criteria (example_store 7)
        { min_value := 100, max_value := 200, min_index := 5, max_index := 10000,
          flag_mask := 0x0001, checksum_validation := true } = false) ∧
    matches_criteria (example_store 7)
      { min_value := 100, max_value := 200, min_index := 5, max_index := 10000,
        flag_mask := 0x0009, checksum_validation := true } = false :=
  ⟨by decide,
    C11_tightening_mask_keeps_mismatch (example_store 7)
      { min_value := 100, max_value := 200, min_index := 5, max_index := 10000,
        flag_mask := 0x0001, checksum_validation := true }
      { min_value := 100, max_value := 200, min_index := 5, max_index := 10000,
        flag_mask := 0x0009, checksum_validation := true }
      rfl rfl rfl rfl rfl (by decide) (by decide)⟩

/-- C12: flag conjunction. For all 16-bit `v`, `p`, the word
`encode_integer v p 0x0008` matches the default query with `flag_mask = 0x0008`
and does not match the default query with `flag_mask = 0x0009`. In general,
for every query with a nonzero mask `m` and every word whose flags `f` have
`f AND m != m`, `matches_criteria` is false, whatever the other query fields
are. -/
theorem C12_flag_mask_is_conjunctive (v p : Nat) (hv : v < 65536) (hp : p < 65536) :
    matches_criteria (encode_integer v p 0x0008)
        { QueryCriteria.default with flag_mask := 0x0008 } = true ∧
      matches_criteria (encode_integer v p 0x0008)
        { QueryCriteria.default with flag_mask := 0x0009 } = false ∧
      ∀ (r : Nat) (q : QueryCriteria), q.flag_mask ≠ 0 →
        (decode_integer r).2.2.1 &&& q.flag_mask ≠ q.flag_mask →
        matches_criteria r q = false := by
  have hd := decode_encode v p 0x0008 hv hp (by decide)
  refine ⟨?_, ?_, not_matches_of_flags_missing⟩
  · refine (matches_criteria_iff _ _ _ _ _ _ hd).mpr
      ⟨⟨?_, ?_⟩, ⟨?_, ?_⟩, Or.inr (by decide), Or.inl rfl⟩
    · show (0 : Int) ≤ (v : Int); omega
    · show (v : Int) ≤ 65535; omega
    · show (0 : Int) ≤ (p : Int); omega
    · show (p : Int) ≤ 65535; omega
  · refine not_matches_of_flags_missing _ _ (by decide) ?_
    rw [hd]
    show (8 : Nat) &&& 9 ≠ 9
    decide

theorem C12_flag_mask_is_conjunctive_witness :
    (150 < 65536 ∧ 7 < 65536) ∧
      (matches_criteria (encode_integer 150 7 0x0008)
          { QueryCriteria.default with flag_mask := 0x0008 } = true ∧
        matches_criteria (encode_integer 150 7 0x0008)
          { QueryCriteria.default with flag_mask := 0x0009 } = false ∧
        ∀ (r : Nat) (q : QueryCriteria), q.flag_mask ≠ 0 →
          (decode_integer r).2.2.1 &&& q.flag_mask ≠ q.flag_mask →
          matches_criteria r q = false) :=
  ⟨by decide, C12_flag_mask_is_conjunctive 150 7 (by decide) (by decide)⟩

/-- C13: the checksum sees only `value XOR position`. Whenever
`v XOR p = v1 XOR p1`, `crc16 v p = crc16 v1 p1`; in particular corrupting both
fields by the same mask `d` goes undetected,
`validate_checksum (v XOR d) (p XOR d) (crc16 v p)` is true, and
`crc16 v p = crc16 p v`. -/
theorem C13_checksum_depends_on_xor_only (v p v1 p1 d : Nat)
    (h : v ^^^ p = v1 ^^^ p1) :
    crc16 v p = crc16 v1 p1 ∧
      validate_checksum (v ^^^ d) (p ^^^ d) (crc16 v p) = true ∧
      crc16 v p = crc16 p v := by
  refine ⟨crc16_congr v p v1 p1 h, ?_, crc16_congr v p p v (Nat.xor_comm v p)⟩
  rw [validate_checksum_iff]
  exact crc16_congr _ _ _ _ (xor_xor_cancel_mask v p d)

theorem C13_checksum_depends_on_xor_only_witness :
    (150 ^^^ 7 = 151 ^^^ 6) ∧
      (crc16 150 7 = crc16 151 6 ∧
        validate_checksum (150 ^^^ 0x00F0) (7 ^^^ 0x00F0) (crc16 150 7) = true ∧
        crc16 150 7 = crc16 7 150) :=
  ⟨by decide, C13_checksum_depends_on_xor_only 150 7 151 6 0x00F0 (by decide)⟩

/-- C14: the default query accepts everything. For every word `r`, corrupt
ones included, `matches_criteria r QueryCriteria()` is true; the default query
has value range [0, 65535], index range [0, 65535], `flag_mask` 0 and checksum
validation off. -/
theorem C14_default_query_accepts_all (r : Nat) :
    QueryCriteria.default =
        { min_value := 0, max_value := 65535, min_index := 0, max_index := 65535,
          flag_mask := 0, checksum_validation := false } ∧
      matches_criteria r QueryCriteria.default = true := by
  obtain ⟨hv, hp, -, -⟩ := decode_integer_fields_lt r
  refine ⟨rfl, (matches_criteria_iff r _ _ _ _ _ rfl).mpr
    ⟨⟨?_, ?_⟩, ⟨?_, ?_⟩, Or.inl rfl, Or.inl rfl⟩⟩
  · show (0 : Int) ≤ ((decode_integer r).1 : Int); omega
  · show ((decode_integer r).1 : Int) ≤ 65535; omega
  · show (0 : Int) ≤ ((decode_integer r).2.1 : Int); omega
  · show ((decode_integer r).2.1 : Int) ≤ 65535; omega

/-- C19: the checksum is injective on the XOR message. For all 16-bit `v`, `p`,
`v1`, `p1`: if `crc16 v p = crc16 v1 p1` then `v XOR p = v1 XOR p1`; the map
`d -> crc16 d 0` reaches every 16-bit word, hence is a bijection of the 16-bit
words; and `validate_checksum v1 p1 (crc16 v p)` is false whenever
`v1 XOR p1 != v XOR p`. -/
theorem C19_checksum_injective_on_xor (v p v1 p1 : Nat) (hv : v < 65536) (hp : p < 65536)
    (hv1 : v1 < 65536) (hp1 : p1 < 65536) :
    (crc16 v p = crc16 v1 p1 → v ^^^ p = v1 ^^^ p1) ∧
      (∀ d e : Nat, d < 65536 → e < 65536 → crc16 d 0 = crc16 e 0 → d = e) ∧
      (∀ c : Nat, c < 65536 → ∃ d, d < 65536 ∧ crc16 d 0 = c) ∧
      (v1 ^^^ p1 ≠ v ^^^ p → validate_checksum v1 p1 (crc16 v p) = false) := by
  refine ⟨crc16_injective v p v1 p1 hv hp hv1 hp1, ?_, crc16_zero_surjective, ?_⟩
  · intro d e hd he h
    have := crc16_injective d 0 e 0 hd (by decide) he (by decide) h
    simpa using this
  · intro hne
    rw [← Bool.not_eq_true, validate_checksum_iff]
    exact fun h => hne (crc16_injective v1 p1 v p hv1 hp1 hv hp h)

theorem C19_checksum_injective_on_xor_witness :
    (150 < 65536 ∧ 7 < 65536 ∧ 151 < 65536 ∧ 7 < 65536) ∧
      ((crc16 150 7 = crc16 151 7 → 150 ^^^ 7 = 151 ^^^ 7) ∧
        (∀ d e : Nat, d < 65536 → e < 65536 → crc16 d 0 = crc16 e 0 → d = e) ∧
        (∀ c : Nat, c < 65536 → ∃ d, d < 65536 ∧ crc16 d 0 = c) ∧
        (151 ^^^ 7 ≠ 150 ^^^ 7 → validate_checksum 151 7 (crc16 150 7) = false)) :=
  ⟨by decide,
    C19_checksum_injective_on_xor 150 7 151 7 (by decide) (by decide) (by decide) (by decide)⟩

/-! ## Invariants of the search loop -/

theorem binary_search_run_eq (data : Nat → Nat) (n : Nat) (q : QueryCriteria) :
    binary_search_run data n q = search_loop data q n (initial_state n) :=
  rfl

/-- The midpoint read by the loop body is appended to the list of probes. -/
theorem search_body_probes (data : Nat → Nat) (q : QueryCriteria) (s : SearchState) :
    (search_body data q s).probes = s.probes ++ [s.left + Int.tdiv (s.right - s.left) 2] := by
  simp only [search_body]
  split_ifs <;> rfl

/-- Whichever branch is taken, the loop body leaves at most half of the
candidate slots. -/
theorem search_body_halves (data : Nat → Nat) (q : QueryCriteria) (s : SearchState)
    (h : s.left ≤ s.right) :
    0 ≤ (search_body data q s).right - (search_body data q s).left + 1 ∧
      (search_body data q s).right - (search_body data q s).left + 1
        ≤ (s.right - s.left + 1) / 2 := by
  obtain ⟨mid, hm, h1, h2, hc⟩ := search_body_cases data q s h
  rcases hc with ⟨-, e⟩ | ⟨-, -, e⟩ | ⟨-, -, e⟩ <;> rw [e] <;> simp only [] <;> omega

/-- A property kept by the loop body holds when the loop is left. -/
theorem search_loop_invariant (data : Nat → Nat) (q : QueryCriteria)
    (P : SearchState → Prop)
    (hP : ∀ s, P s → s.left ≤ s.right → P (search_body data q s)) :
    ∀ (fuel : Nat) (s t : SearchState), search_loop data q fuel s = some t → P s →
      P t ∧ t.right < t.left := by
  intro fuel
  induction fuel with
  | zero =>
    intro s t h hs
    by_cases hg : s.left ≤ s.right
    · rw [search_loop, if_pos hg] at h; cases h
    · rw [search_loop_done data q 0 s hg] at h
      cases h
      exact ⟨hs, by omega⟩
  | succ fuel ih =>
    intro s t h hs
    by_cases hg : s.left ≤ s.right
    · rw [search_loop_step data q fuel s hg] at h
      exact ih _ t h (hP s hs hg)
    · rw [search_loop_done data q _ s hg] at h
      cases h
      exact ⟨hs, by omega⟩

/-- The loop is left after at most `k` executions of its body when fewer than
`2 ^ k` candidate slots remain. -/
theorem search_loop_log_bound (data : Nat → Nat) (q : QueryCriteria) :
    ∀ (fuel k : Nat) (s : SearchState), (s.right - s.left + 1).toNat < 2 ^ k →
      (s.right - s.left + 1).toNat ≤ fuel →
      ∃ t, search_loop data q fuel s = some t ∧ t.right < t.left ∧
        t.probes.length ≤ s.probes.length + k := by
  intro fuel
  induction fuel with
  | zero =>
    intro k s _ hw
    exact ⟨s, search_loop_done data q 0 s (by omega), by omega, by omega⟩
  | succ fuel ih =>
    intro k s hk hw
    by_cases h : s.left ≤ s.right
    · rw [search_loop_step data q fuel s h]
      obtain ⟨h0, hh⟩ := search_body_halves data q s h
      have hp := search_body_probes data q s
      cases k with
      | zero => simp only [pow_zero] at hk; omega
      | succ k =>
        have hk2 : 2 ^ (k + 1) = 2 * 2 ^ k := by ring
        obtain ⟨t, ht, hx, hl⟩ := ih k (search_body data q s) (by omega) (by omega)
        refine ⟨t, ht, hx, ?_⟩
        rw [hp, List.length_append, List.length_singleton] at hl
        omega
    · exact ⟨s, search_loop_done data q _ s h, by omega, by omega⟩

theorem initial_width (n : Nat) :
    ((initial_state n).right - (initial_state n).left + 1).toNat ≤ n := by
  simp only [initial_state, to_int]
  omega

/-! ## Claim C15 -/

/-- C15: the search runs to completion by halving. For every store of
`n <= 2^31 - 1` words and every query the loop of
`binary_search_memory_mapped` terminates and a value is returned; the loop is
left with the bounds crossed after at most `k` reads whenever `n < 2^k`; and
each iteration that starts with `w = right - left + 1 >= 1` candidate slots
ends with at most `floor(w / 2)` candidate slots, whichever branch is taken. -/
theorem C15_search_terminates_by_halving (data : Nat → Nat) (n : Nat) (q : QueryCriteria)
    (_hn : n ≤ 2 ^ 31 - 1) :
    (∃ t, binary_search_run data n q = some t ∧ t.right < t.left ∧
        binary_search_memory_mapped data n q = some t.result ∧
        ∀ k : Nat, n < 2 ^ k → t.probes.length ≤ k) ∧
      ∀ s : SearchState, s.left ≤ s.right →
        0 ≤ (search_body data q s).right - (search_body data q s).left + 1 ∧
          (search_body data q s).right - (search_body data q s).left + 1
            ≤ (s.right - s.left + 1) / 2 := by
  refine ⟨?_, search_body_halves data q⟩
  have hw := initial_width n
  obtain ⟨t, ht, hx, -⟩ := search_loop_log_bound data q n n (initial_state n)
    (lt_of_le_of_lt hw (Nat.lt_two_pow n)) hw
  refine ⟨t, ht, hx, ?_, ?_⟩
  · rw [binary_search_memory_mapped, binary_search_run_eq, ht]; rfl
  · intro k hk
    obtain ⟨t1, ht1, -, hl⟩ := search_loop_log_bound data q n k (initial_state n)
      (lt_of_le_of_lt hw hk) hw
    rw [ht] at ht1
    cases ht1
    simpa [initial_state] using hl

theorem C15_search_terminates_by_halving_witness :
    (10 ≤ 2 ^ 31 - 1) ∧
      ((∃ t, binary_search_run example_store 10 example_query = some t ∧ t.right < t.left ∧
          binary_search_memory_mapped example_store 10 example_query = some t.result ∧
          ∀ k : Nat, 10 < 2 ^ k → t.probes.length ≤ k) ∧
        ∀ s : SearchState, s.left ≤ s.right →
          0 ≤ (search_body example_store example_query s).right
              - (search_body example_store example_query s).left + 1 ∧
            (search_body example_store example_query s).right
              - (search_body example_store example_query s).left + 1
              ≤ (s.right - s.left + 1) / 2) :=
  ⟨by decide, C15_search_terminates_by_halving example_store 10 example_query (by decide)⟩

/-! ## Soundness of the value returned -/

theorem search_inv_initial (data : Nat → Nat) (n : Nat) (q : QueryCriteria)
    (hn : n ≤ 2 ^ 31 - 1) : search_inv data n q (initial_state n) := by
  have hr : (initial_state n).right = (n : Int) - 1 := initial_right n hn
  refine ⟨le_refl _, by rw [hr]; omega, Or.inl rfl, ?_, ?_⟩
  · intro m hm; cases hm
  · intro m hm; cases hm

/-- The loop body keeps the invariant. -/
theorem search_inv_body (data : Nat → Nat) (n : Nat) (q : QueryCriteria) (s : SearchState)
    (hs : search_inv data n q s) (hg : s.left ≤ s.right) :
    search_inv data n q (search_body data q s) := by
  obtain ⟨hl, hr, hres, hpr, hmin⟩ := hs
  obtain ⟨mid, -, h1, h2, hc⟩ := search_body_cases data q s hg
  have hres2 : s.result ≠ -1 → s.right < s.result := by
    intro hne
    rcases hres with h | ⟨-, -, -, -, h⟩
    · exact absurd h hne
    · exact h
  rcases hc with ⟨hm, e⟩ | ⟨hm, -, e⟩ | ⟨hm, -, e⟩
  · rw [e]
    refine ⟨hl, ?_, Or.inr ⟨?_, ?_, hm, ?_, ?_⟩, ?_, ?_⟩
    · show mid - 1 < (n : Int); omega
    · show 0 ≤ mid; omega
    · show mid < (n : Int); omega
    · show mid ∈ s.probes ++ [mid]; simp
    · show mid - 1 < mid; omega
    · intro m hmem
      have hmem2 : m ∈ s.probes ++ [mid] := hmem
      rw [List.mem_append, List.mem_singleton] at hmem2
      rcases hmem2 with h | h
      · exact hpr m h
      · subst h; exact ⟨by omega, by omega⟩
    · intro m hmem hmm
      have hmem2 : m ∈ s.probes ++ [mid] := hmem
      rw [List.mem_append, List.mem_singleton] at hmem2
      show mid ≠ -1 ∧ mid ≤ m
      rcases hmem2 with h | h
      · obtain ⟨a, b⟩ := hmin m h hmm
        have := hres2 a
        exact ⟨by omega, by omega⟩
      · subst h; exact ⟨by omega, le_refl _⟩
  · rw [e]
    refine ⟨?_, hr, ?_, ?_, ?_⟩
    · show 0 ≤ mid + 1; omega
    · rcases hres with h | ⟨a, b, c, d, f⟩
      · exact Or.inl h
      · exact Or.inr ⟨a, b, c, List.mem_append_left _ d, f⟩
    · intro m hmem
      have hmem2 : m ∈ s.probes ++ [mid] := hmem
      rw [List.mem_append, List.mem_singleton] at hmem2
      rcases hmem2 with h | h
      · exact hpr m h
      · subst h; exact ⟨by omega, by omega⟩
    · intro m hmem hmm
      have hmem2 : m ∈ s.probes ++ [mid] := hmem
      rw [List.mem_append, List.mem_singleton] at hmem2
      rcases hmem2 with h | h
      · exact hmin m h hmm
      · subst h; rw [hm] at hmm; cases hmm
  · rw [e]
    refine ⟨hl, ?_, ?_, ?_, ?_⟩
    · show mid - 1 < (n : Int); omega
    · rcases hres with h | ⟨a, b, c, d, f⟩
      · exact Or.inl h
      · refine Or.inr ⟨a, b, c, List.mem_append_left _ d, ?_⟩
        show mid - 1 < s.result
        omega
    · intro m hmem
      have hmem2 : m ∈ s.probes ++ [mid] := hmem
      rw [List.mem_append, List.mem_singleton] at hmem2
      rcases hmem2 with h | h
      · exact hpr m h
      · subst h; exact ⟨by omega, by omega⟩
    · intro m hmem hmm
      have hmem2 : m ∈ s.probes ++ [mid] := hmem
      rw [List.mem_append, List.mem_singleton] at hmem2
      rcases hmem2 with h | h
      · exact hmin m h hmm
      · subst h; rw [hm] at hmm; cases hmm

/-- The invariant holds in the state in which the search leaves its loop. -/
theorem search_inv_final (data : Nat → Nat) (n : Nat) (q : QueryCriteria)
    (hn : n ≤ 2 ^ 31 - 1) :
    ∃ t, binary_search_run data n q = some t ∧ search_inv data n q t := by
  obtain ⟨t, ht⟩ := binary_search_run_terminates data n q
  refine ⟨t, ht, ?_⟩
  rw [binary_search_run_eq] at ht
  exact (search_loop_invariant data q (search_inv data n q)
    (search_inv_body data n q) n _ t ht (search_inv_initial data n q hn)).1

/-! ## Claim C16 -/

/-- C16: search soundness. For every store of `n <= 2^31 - 1` words and every
query, if `binary_search_memory_mapped` returns a value `res` different from
-1, then `0 <= res < n`, the word in slot `res` matches the query, `res` is one
of the slots the loop read, and no matching slot the loop read is smaller. -/
theorem C16_search_result_sound (data : Nat → Nat) (n : Nat) (q : QueryCriteria)
    (hn : n ≤ 2 ^ 31 - 1) (res : Int)
    (h : binary_search_memory_mapped data n q = some res) (hne : res ≠ -1) :
    0 ≤ res ∧ res < (n : Int) ∧ matches_criteria (data res.toNat) q = true ∧
      ∃ ps, binary_search_probes data n q = some ps ∧ res ∈ ps ∧
        ∀ m ∈ ps, matches_criteria (data m.toNat) q = true → res ≤ m := by
  obtain ⟨t, ht, -, -, hres, -, hmin⟩ := search_inv_final data n q hn
  rw [binary_search_memory_mapped, ht] at h
  have hr : t.result = res := by simpa using h
  rw [hr] at hres hmin
  rcases hres with h1 | ⟨a, b, c, d, -⟩
  · exact absurd h1 hne
  · refine ⟨a, b, c, t.probes, ?_, d, fun m hm hmm => (hmin m hm hmm).2⟩
    rw [binary_search_probes, ht]; rfl

theorem C16_search_result_sound_witness :
    (3 ≤ 2 ^ 31 - 1 ∧
      binary_search_memory_mapped uniform_store 3 example_query = some 0 ∧ (0 : Int) ≠ -1) ∧
    ((0 : Int) ≤ 0 ∧ (0 : Int) < ((3 : Nat) : Int) ∧
      matches_criteria (uniform_store (0 : Int).toNat) example_query = true ∧
      ∃ ps, binary_search_probes uniform_store 3 example_query = some ps ∧ (0 : Int) ∈ ps ∧
        ∀ m ∈ ps, matches_criteria (uniform_store m.toNat) example_query = true → 0 ≤ m) :=
  ⟨by decide,
    C16_search_result_sound uniform_store 3 example_query (by decide) 0 (by decide)
      (by decide)⟩

/-! ## The states in which the loop body is entered -/

/-- The state in which the loop is left is reached by executing the body some
`j` times from the start, the loop condition holding before each execution. -/
theorem search_loop_eq_iterate (data : Nat → Nat) (q : QueryCriteria) :
    ∀ (fuel : Nat) (s t : SearchState), search_loop data q fuel s = some t →
      ∃ j : Nat, t = Nat.iterate (search_body data q) j s ∧
        ∀ i : Nat, i < j →
          (Nat.iterate (search_body data q) i s).left
            ≤ (Nat.iterate (search_body data q) i s).right := by
  intro fuel
  induction fuel with
  | zero =>
    intro s t h
    by_cases hg : s.left ≤ s.right
    · rw [search_loop, if_pos hg] at h; cases h
    · rw [search_loop_done data q 0 s hg] at h
      cases h
      exact ⟨0, rfl, fun i hi => absurd hi (Nat.not_lt_zero i)⟩
  | succ fuel ih =>
    intro s t h
    by_cases hg : s.left ≤ s.right
    · rw [search_loop_step data q fuel s hg] at h
      obtain ⟨j, hj, hall⟩ := ih _ t h
      refine ⟨j + 1, ?_, ?_⟩
      · rw [Function.iterate_succ_apply]; exact hj
      · intro i hi
        cases i with
        | zero => exact hg
        | succ i =>
          rw [Function.iterate_succ_apply]
          exact hall i (by omega)
    · rw [search_loop_done data q _ s hg] at h
      cases h
      exact ⟨0, rfl, fun i hi => absurd hi (Nat.not_lt_zero i)⟩

/-- A property kept by the loop body holds in every state in which the body
is entered. -/
theorem iterate_invariant (data : Nat → Nat) (q : QueryCriteria)
    (P : SearchState → Prop)
    (hP : ∀ s, P s → s.left ≤ s.right → P (search_body data q s))
    (s : SearchState) (hs : P s) (j : Nat)
    (hall : ∀ i : Nat, i < j →
      (Nat.iterate (search_body data q) i s).left
        ≤ (Nat.iterate (search_body data q) i s).right) :
    ∀ i : Nat, i ≤ j → P (Nat.iterate (search_body data q) i s) := by
  intro i
  induction i with
  | zero => intro _; exact hs
  | succ i ih =>
    intro hi
    rw [Function.iterate_succ_apply']
    exact hP _ (ih (by omega)) (hall i (by omega))

/-- The slots read are the midpoints of the states in which the body is
entered, in order. -/
theorem iterate_probes (data : Nat → Nat) (q : QueryCriteria) (s : SearchState) :
    ∀ j : Nat, (Nat.iterate (search_body data q) j s).probes
      = s.probes ++ (List.range j).map
          (fun i => search_mid (Nat.iterate (search_body data q) i s)) := by
  intro j
  induction j with
  | zero => simp
  | succ j ih =>
    rw [Function.iterate_succ_apply', search_body_probes, ih, List.range_succ,
      List.map_append, List.append_assoc]
    rfl

/-- Inside the store and under the loop condition, the read is safe. -/
theorem probe_safe_of_bounds (n : Nat) (s : SearchState) (hn : n ≤ 2 ^ 31 - 1)
    (hl : 0 ≤ s.left) (hr : s.right < (n : Int)) (hg : s.left ≤ s.right) :
    probe_safe n s := by
  have h0 : (0 : Int) ≤ s.right - s.left := sub_nonneg.mpr hg
  have hd : Int.tdiv (s.right - s.left) 2 = (s.right - s.left) / 2 :=
    Int.tdiv_eq_ediv h0 (by decide)
  unfold probe_safe search_mid in_int_range
  rw [hd]
  refine ⟨hl, ?_, ?_, ?_, ⟨?_, ?_⟩, ⟨?_, ?_⟩, ⟨?_, ?_⟩, ⟨?_, ?_⟩, ⟨?_, ?_⟩⟩ <;> omega

/-! ## Claim C18 -/

/-- C18: probe safety. For every store of `n <= 2^31 - 1` words and every
query, the loop leaves after some `j` executions of its body; in each of the
`j` states in which the body is entered, `0 <= left <= mid <= right <= n - 1`
and the values `right - left`, `(right - left) / 2`, `mid`, `mid + 1` and
`mid - 1` are within the 32-bit signed range; the slots read are exactly these
midpoints, so every slot read lies in `[0, n - 1]`. -/
theorem C18_probes_stay_in_store (data : Nat → Nat) (n : Nat) (q : QueryCriteria)
    (hn : n ≤ 2 ^ 31 - 1) :
    ∃ (j : Nat) (ps : List Int),
      binary_search_run data n q
        = some (Nat.iterate (search_body data q) j (initial_state n)) ∧
      binary_search_probes data n q = some ps ∧
      ps = (List.range j).map
        (fun i => search_mid (Nat.iterate (search_body data q) i (initial_state n))) ∧
      (∀ m ∈ ps, 0 ≤ m ∧ m ≤ (n : Int) - 1) ∧
      ∀ i : Nat, i < j →
        (Nat.iterate (search_body data q) i (initial_state n)).left
          ≤ (Nat.iterate (search_body data q) i (initial_state n)).right ∧
        probe_safe n (Nat.iterate (search_body data q) i (initial_state n)) := by
  obtain ⟨t, ht, hinv⟩ := search_inv_final data n q hn
  have ht2 := ht
  rw [binary_search_run_eq] at ht2
  obtain ⟨j, hj, hall⟩ := search_loop_eq_iterate data q n _ t ht2
  have hP := iterate_invariant data q (search_inv data n q) (search_inv_body data n q)
    (initial_state n) (search_inv_initial data n q hn) j hall
  have hpr := iterate_probes data q (initial_state n) j
  refine ⟨j, t.probes, by rw [ht, hj], by rw [binary_search_probes, ht]; rfl, ?_, ?_, ?_⟩
  · rw [hj, hpr]; rfl
  · intro m hm
    have := hinv.2.2.2.1 m hm
    omega
  · intro i hi
    obtain ⟨hl, hr, -⟩ := hP i (by omega)
    exact ⟨hall i hi, probe_safe_of_bounds n _ hn hl hr (hall i hi)⟩

theorem C18_probes_stay_in_store_witness :
    (10 ≤ 2 ^ 31 - 1) ∧
    ∃ (j : Nat) (ps : List Int),
      binary_search_run layout_store 10 example_query
        = some (Nat.iterate (search_body layout_store example_query) j (initial_state 10)) ∧
      binary_search_probes layout_store 10 example_query = some ps ∧
      ps = (List.range j).map
        (fun i => search_mid
          (Nat.iterate (search_body layout_store example_query) i (initial_state 10))) ∧
      (∀ m ∈ ps, 0 ≤ m ∧ m ≤ ((10 : Nat) : Int) - 1) ∧
      ∀ i : Nat, i < j →
        (Nat.iterate (search_body layout_store example_query) i (initial_state 10)).left
          ≤ (Nat.iterate (search_body layout_store example_query) i (initial_state 10)).right ∧
        probe_safe 10 (Nat.iterate (search_body layout_store example_query) i (initial_state 10)) :=
  ⟨by decide, C18_probes_stay_in_store layout_store 10 example_query (by decide)⟩

/-! ## A layout on which the pruning rule finds the first match -/

/-- While slot `k` lies between the bounds, the loop ends with `result = k`:
nonzero words left of `k` push `left` up, matches and zeros right of `k` pull
`right` down, and after the read of `k` only non-matching slots remain. -/
theorem search_loop_finds_first (data : Nat → Nat) (n : Nat) (q : QueryCriteria) (k : Nat)
    (hbelow : ∀ i : Nat, i < k → data i ≠ 0 ∧ matches_criteria (data i) q = false)
    (hk : matches_criteria (data k) q = true)
    (habove : ∀ i : Nat, i < n → k < i → matches_criteria (data i) q = true ∨ data i = 0) :
    ∀ (fuel : Nat) (s : SearchState), (s.right - s.left + 1).toNat ≤ fuel → 0 ≤ s.left →
      s.left ≤ (k : Int) → (k : Int) ≤ s.right → s.right < (n : Int) →
      ∃ t, search_loop data q fuel s = some t ∧ t.result = (k : Int) := by
  intro fuel
  induction fuel with
  | zero =>
    intro s hw hl h1 h2 hr
    omega
  | succ fuel ih =>
    intro s hw hl hlk hkr hr
    have hg : s.left ≤ s.right := by omega
    rw [search_loop_step data q fuel s hg]
    obtain ⟨mid, -, h1, h2, hc⟩ := search_body_cases data q s hg
    have hlow : mid < (k : Int) →
        data mid.toNat ≠ 0 ∧ matches_criteria (data mid.toNat) q = false :=
      fun h => hbelow mid.toNat (by omega)
    have heq : mid = (k : Int) → matches_criteria (data mid.toNat) q = true := by
      intro h
      have : mid.toNat = k := by omega
      rw [this]; exact hk
    have hhigh : (k : Int) < mid →
        matches_criteria (data mid.toNat) q = true ∨ data mid.toNat = 0 :=
      fun h => habove mid.toNat (by omega) (by omega)
    rcases lt_trichotomy mid (k : Int) with hlt | hmk | hgt
    · obtain ⟨hnz, hnm⟩ := hlow hlt
      rcases hc with ⟨hm, -⟩ | ⟨-, -, e⟩ | ⟨-, hz, -⟩
      · rw [hnm] at hm; cases hm
      · rw [e]
        exact ih _ (by simp only []; omega) (by simp only []; omega)
          (by simp only []; omega) hkr hr
      · exact absurd hz hnz
    · have hm2 := heq hmk
      rcases hc with ⟨-, e⟩ | ⟨hm, -, -⟩ | ⟨hm, -, -⟩
      · rw [e]
        obtain ⟨t, ht, hres⟩ := search_loop_result_of_no_match data k q
          (fun i hi => (hbelow i hi).2) fuel
          { left := s.left, right := mid - 1, result := mid, probes := s.probes ++ [mid] }
          (by simp only []; omega) hl (by simp only []; omega)
        exact ⟨t, ht, by rw [hres]; exact hmk⟩
      · rw [hm2] at hm; cases hm
      · rw [hm2] at hm; cases hm
    · rcases hc with ⟨-, e⟩ | ⟨hm, hz, -⟩ | ⟨-, -, e⟩
      · rw [e]
        exact ih _ (by simp only []; omega) hl hlk (by simp only []; omega)
          (by simp only []; omega)
      · rcases hhigh hgt with h | h
        · rw [h] at hm; cases hm
        · omega
      · rw [e]
        exact ih _ (by simp only []; omega) hl hlk (by simp only []; omega)
          (by simp only []; omega)

/-! ## Claim C17 -/

/-- C17: a layout under which the pruning rule is correct. For every store of
`n <= 2^31 - 1` words, every query and every slot `k`: if `k < n`, every slot
below `k` holds a nonzero word that does not match, slot `k` matches, and every
slot above `k` either matches or holds zero, then
`binary_search_memory_mapped` returns `k`. Likewise, if `k <= n`, every slot
below `k` is nonzero and non-matching and every slot from `k` on is zero and
non-matching, it returns -1. -/
theorem C17_pruning_correct_on_layout (data : Nat → Nat) (n : Nat) (q : QueryCriteria)
    (k : Nat) (hn : n ≤ 2 ^ 31 - 1) :
    (k < n →
        (∀ i : Nat, i < k → data i ≠ 0 ∧ matches_criteria (data i) q = false) →
        matches_criteria (data k) q = true →
        (∀ i : Nat, i < n → k < i → matches_criteria (data i) q = true ∨ data i = 0) →
        binary_search_memory_mapped data n q = some (k : Int)) ∧
      (k ≤ n →
        (∀ i : Nat, i < k → data i ≠ 0 ∧ matches_criteria (data i) q = false) →
        (∀ i : Nat, i < n → k ≤ i → data i = 0 ∧ matches_criteria (data i) q = false) →
        binary_search_memory_mapped data n q = some (-1)) := by
  constructor
  · intro hkn hbelow hk habove
    have hr : (initial_state n).right = (n : Int) - 1 := initial_right n hn
    obtain ⟨t, ht, hres⟩ := search_loop_finds_first data n q k hbelow hk habove n
      (initial_state n) (initial_width n) (le_refl _) (Int.natCast_nonneg k)
      (by rw [hr]; omega) (by rw [hr]; omega)
    rw [binary_search_memory_mapped, binary_search_run_eq, ht]
    simp only [Option.map_some']
    rw [hres]
  · intro _ hbelow hfrom
    refine search_not_found_of_no_match data n q hn ?_
    intro i hi
    by_cases h : i < k
    · exact (hbelow i h).2
    · exact (hfrom i hi (by omega)).2

theorem C17_pruning_correct_on_layout_witness :
    binary_search_memory_mapped layout_store 10 example_query = some ((3 : Nat) : Int) ∧
      binary_search_memory_mapped layout_store_no_match 10 example_query = some (-1) :=
  ⟨(C17_pruning_correct_on_layout layout_store 10 example_query 3 (by decide)).1
      (by decide) (by decide) (by decide) (by decide),
    (C17_pruning_correct_on_layout layout_store_no_match 10 example_query 3 (by decide)).2
      (by decide) (by decide) (by decide)⟩

/-! ## Claim C20 -/

theorem main_query_eq :
    main_query =
      { min_value := 100, max_value := 200, min_index := 5000, max_index := 10000,
        flag_mask := 0x0008, checksum_validation := true } :=
  rfl

/-- Below `numIntegers` the mapped word encodes the slot number modulo
`65536` as value and as position. -/
theorem mapped_data_eq (i : Nat) (hi : i < numIntegers) :
    mapped_data i
      = encode_integer (i % 65536) (i % 65536) (if (i % 65536) % 2 = 0 then 0x0008 else 0) := by
  unfold mapped_data dataset_line
  rw [if_pos hi]
  simp only [Nat.mod_mod]

/-- No slot of the region built by `main` matches the query built by `main`. -/
theorem mapped_data_no_match (i : Nat) :
    matches_criteria (mapped_data i) main_query = false := by
  by_cases hi : i < numIntegers
  · have hf : (if (i % 65536) % 2 = 0 then 0x0008 else 0) < 65536 := by
      split_ifs <;> decide
    have hm : i % 65536 < 65536 := Nat.mod_lt _ (by decide)
    have hd := decode_encode (i % 65536) (i % 65536) _ hm hm hf
    rw [mapped_data_eq i hi, ← Bool.not_eq_true]
    intro h
    obtain ⟨⟨a, b⟩, ⟨c, d⟩, -⟩ := (matches_criteria_iff _ _ _ _ _ _ hd).mp h
    rw [main_query_eq] at a b c d
    simp only [] at a b c d
    omega
  · have : mapped_data i = 0 := by
      unfold mapped_data
      rw [if_neg hi]
    rw [this]
    decide

/-- C20: the built-in example query can never match the built-in data set. For
every slot number `i` below `numIntegers`, the word `main` stores in slot `i`
is `encode_integer (i mod 65536) (i mod 65536) flags` with `flags = 0x0008` if
`i mod 65536` is even and 0 otherwise, so its value equals its position; hence
`matches_criteria` of every slot against the example query (value in
[100, 200], index in [5000, 10000], `flag_mask` 0x0008, checksum validation
on) is false, and the search over that store returns -1. -/
theorem C20_builtin_query_never_matches :
    (∀ i : Nat, i < numIntegers →
        mapped_data i
          = encode_integer (i % 65536) (i % 65536)
              (if (i % 65536) % 2 = 0 then 0x0008 else 0) ∧
        (decode_integer (mapped_data i)).1 = (decode_integer (mapped_data i)).2.1) ∧
      main_query =
        { min_value := 100, max_value := 200, min_index := 5000, max_index := 10000,
          flag_mask := 0x0008, checksum_validation := true } ∧
      (∀ i : Nat, matches_criteria (mapped_data i) main_query = false) ∧
      binary_search_memory_mapped mapped_data numIntegers main_query = some (-1) := by
  refine ⟨?_, main_query_eq, mapped_data_no_match, ?_⟩
  · intro i hi
    have hf : (if (i % 65536) % 2 = 0 then 0x0008 else 0) < 65536 := by
      split_ifs <;> decide
    have hm : i % 65536 < 65536 := Nat.mod_lt _ (by decide)
    refine ⟨mapped_data_eq i hi, ?_⟩
    rw [mapped_data_eq i hi, decode_encode (i % 65536) (i % 65536) _ hm hm hf]
  · exact search_not_found_of_no_match mapped_data numIntegers main_query (by decide)
      (fun i _ => mapped_data_no_match i)

theorem C20_builtin_query_never_matches_witness :
    150 < numIntegers ∧
      (mapped_data 150 = encode_integer (150 % 65536) (150 % 65536)
          (if (150 % 65536) % 2 = 0 then 0x0008 else 0) ∧
        (decode_integer (mapped_data 150)).1 = (decode_integer (mapped_data 150)).2.1) :=
  ⟨by decide, C20_builtin_query_never_matches.1 150 (by decide)⟩

end MainInstruct
